import Mathlib

/-!
# Architecture flashcards: session building, shuffle, navigation, gestures

A shallow embedding of `script.js`.  The module-level variables of the script
(`currentStack`, `currentIndex`, `favoriteImages`, the DOM flags the claims talk
about, the stored favourites string, whether the browser accepts a write to
`localStorage`, and the queue of pending `setTimeout` callbacks) are the fields of
one explicit state record `AppState`; every function of the script is a function on
that record.  JS numbers that are coordinates are read as rationals.

Not modelled: CSS animation classes (`swipe-left`, `swipe-right`, `swipe-in`),
the counter and progress texts, image preloading and the tooltip; they never
feed back into the variables above.
-/

namespace ArchFlash

/-! ## Data model (the shape of `data.json`) -/

/-- One building of `data.json`: a name and its image paths. -/
structure Building where
  name : String
  images : List String
  deriving DecidableEq, Repr

/-- One category of `data.json`. -/
structure Category where
  id : String
  name : String
  buildings : List Building
  deriving DecidableEq, Repr

/-- The loaded document, `appData`. -/
structure Dataset where
  categories : List Category
  deriving DecidableEq, Repr

/-- The object literal pushed on `currentStack` by `startSession`. -/
structure CardRecord where
  name : String
  category : String
  image : String
  deriving DecidableEq, Repr

/-- Which of the two top-level views is visible (the other one carries class `hidden`). -/
inductive View where
  | selection
  | flashcard
  deriving DecidableEq, Repr

/-- A pending `setTimeout` callback that changes the position:
`inc` is the callback scheduled by `nextCard` (`currentIndex++; updateCard()`),
`dec` the one scheduled by `prevCard` (`currentIndex--; updateCard()`). -/
inductive Timer where
  | inc
  | dec
  deriving DecidableEq, Repr

/-- The mutable state of the page. -/
structure AppState where
  /-- Variable `appData`. -/
  appData : Dataset
  /-- Variable `currentStack`. -/
  currentStack : List CardRecord
  /-- Variable `currentIndex` (a JS number: `currentIndex--` may take it below zero). -/
  currentIndex : Int
  /-- Variable `favoriteImages`. -/
  favoriteImages : List String
  /-- Value stored under the key `archFlashFavsImg`, when one was written or found. -/
  stored : Option String
  /-- Which view is shown. -/
  view : View
  /-- Whether the flashcard carries class `is-flipped`. -/
  isFlipped : Bool
  /-- The card whose image, title and category are currently in the DOM. -/
  shown : Option CardRecord
  /-- Whether the favourite button carries class `active`. -/
  favActive : Bool
  /-- The value `favCount` captured by the last `initSelectionView`. -/
  favCount : Nat
  /-- Messages passed to `alert`, oldest first. -/
  alerts : List String
  /-- Pending position callbacks, in scheduling order (equal delays fire first-in first-out). -/
  timers : List Timer
  /-- Number of uncaught exceptions: a `TypeError` from reading a field of `undefined`,
  or the exception of a `localStorage.setItem` the browser refuses. -/
  uncaught : Nat
  /-- Whether the browser accepts `localStorage.setItem` (it throws when storage is
  unavailable or full). -/
  storageOk : Bool
  deriving DecidableEq, Repr

/-! ## Counting and selecting -/

/-- Source `countImages`: `buildings.reduce((acc, b) => acc + b.images.length, 0)`. -/
def countImages (buildings : List Building) : Nat :=
  buildings.foldl (fun acc b => acc + b.images.length) 0

/-- Source `totalImages` in `initSelectionView`:
`appData.categories.reduce((acc, cat) => acc + countImages(cat.buildings), 0)`. -/
def totalImages (d : Dataset) : Nat :=
  d.categories.foldl (fun acc cat => acc + countImages cat.buildings) 0

/-- The `include` flag computed in the innermost loop body of `startSession`. -/
def includeFlag (mode : String) (favoriteImages : List String) (cat : Category)
    (img : String) : Bool :=
  if mode = "all" then true
  else if mode = "favs" then favoriteImages.contains img
  else if cat.id = mode then true
  else false

/-- The innermost loop body of `startSession`: push a record when `include` is set. -/
def pushImage (mode : String) (favoriteImages : List String) (cat : Category)
    (build : Building) (stack : List CardRecord) (img : String) : List CardRecord :=
  if includeFlag mode favoriteImages cat img then
    stack ++ [{ name := build.name, category := cat.name, image := img }]
  else stack

/-- The three nested `forEach` loops of `startSession`, run from a given stack. -/
def collectFrom (mode : String) (favoriteImages : List String) (cats : List Category)
    (stack : List CardRecord) : List CardRecord :=
  cats.foldl (fun st cat =>
    cat.buildings.foldl (fun st build =>
      build.images.foldl (pushImage mode favoriteImages cat build) st) st) stack

/-- The stack `startSession` has built when it reaches the emptiness test:
`currentStack = []` followed by the three loops. -/
def selectedCards (mode : String) (favoriteImages : List String) (d : Dataset) :
    List CardRecord :=
  collectFrom mode favoriteImages d.categories []

/-! ## Shuffle -/

/-- The destructuring swap `[a[i], a[j]] = [a[j], a[i]]`: both reads happen first, then
`a[i]` is written, then `a[j]`.  The loop only calls it with `j ≤ i < a.length`; outside
that range the model leaves the list alone. -/
def swapAt {α : Type} (xs : List α) (i j : Nat) : List α :=
  match xs[i]?, xs[j]? with
  | some a, some b => (xs.set i b).set j a
  | _, _ => xs

/-- The Fisher-Yates loop `for (let i = ...; i > 0; i--)` entered with loop variable `i`.
`draw i` is the value of `Math.floor(Math.random() * (i + 1))` at step `i`; its type
records that it lies in `0..i`. -/
def shuffleFrom {α : Type} (draw : (i : Nat) → Fin (i + 1)) : Nat → List α → List α
  | 0, xs => xs
  | i + 1, xs => shuffleFrom draw i (swapAt xs (i + 1) (draw (i + 1)).val)

/-- The whole shuffle loop of `startSession`, starting at `i = length - 1`. -/
def shuffle {α : Type} (draw : (i : Nat) → Fin (i + 1)) (xs : List α) : List α :=
  shuffleFrom draw (xs.length - 1) xs

/-- A draw sequence for a stack of `n` cards: one value `j_i` in `0..i` for every loop
index `i` below `n` (index `0` is never drawn and has the single value `0`). -/
abbrev DrawSeq (n : Nat) : Type := (i : Fin n) → Fin (i.val + 1)

/-- A draw sequence read as the draws of the loop (indices from `n` on are never read). -/
def extendDraws {n : Nat} (d : DrawSeq n) : (i : Nat) → Fin (i + 1) :=
  fun i => if h : i < n then d ⟨i, h⟩ else 0

/-! ## Showing a card -/

/-- The expression `currentStack[currentIndex]`; `none` stands for `undefined`. -/
def currentCard (s : AppState) : Option CardRecord :=
  if 0 ≤ s.currentIndex then s.currentStack[s.currentIndex.toNat]? else none

/-- Source `updateFavButtonState`: the button is active iff the image is a favourite. -/
def updateFavButtonState (imagePath : String) (s : AppState) : AppState :=
  { s with favActive := s.favoriteImages.contains imagePath }

/-- Source `updateCard` (its `animate` flag only drives a CSS class and is left out).
It first removes `is-flipped`, then reads
`currentStack[currentIndex]`; reading `item.image` of `undefined` throws, which is the
`error` result (carrying the state reached at the throw). -/
def updateCard (s : AppState) : Except AppState AppState :=
  let s1 := { s with isFlipped := false }
  match currentCard s1 with
  | none => .error s1
  | some item => .ok (updateFavButtonState item.image { s1 with shown := some item })

/-- Source `startSession`. -/
def startSession (mode : String) (draw : (i : Nat) → Fin (i + 1)) (s : AppState) :
    AppState :=
  let s1 := { s with currentStack := selectedCards mode s.favoriteImages s.appData }
  if s1.currentStack.length = 0 then
    { s1 with alerts := s1.alerts ++ ["No cards found for this selection."] }
  else
    let s2 := { s1 with currentStack := shuffle draw s1.currentStack }
    let s3 := { s2 with currentIndex := 0 }
    match updateCard s3 with
    | .error s4 => { s4 with uncaught := s4.uncaught + 1 }
    | .ok s4 => { s4 with view := View.flashcard }

/-- Source `initSelectionView`, as far as the state goes: it captures
`favCount = favoriteImages.length` for the favourites card. -/
def initSelectionView (s : AppState) : AppState :=
  { s with favCount := s.favoriteImages.length }

/-- The click handler of the 'Your Favorites' card: `if (favCount > 0) startSession('favs')`. -/
def favCardClick (draw : (i : Nat) → Fin (i + 1)) (s : AppState) : AppState :=
  if s.favCount > 0 then startSession "favs" draw s else s

/-- The click handler of the card of category `cat`: `startSession(cat.id)`. -/
def categoryCardClick (cat : Category) (draw : (i : Nat) → Fin (i + 1)) (s : AppState) :
    AppState :=
  startSession cat.id draw s

/-! ## Navigation -/

/-- Source `goHome`: show the selection view, drop `is-flipped`, rebuild the grid. -/
def goHome (s : AppState) : AppState :=
  initSelectionView { s with view := View.selection, isFlipped := false }

/-- Source `nextCard`: the guard is evaluated now, the increment is deferred by
`setTimeout(..., 150)`. -/
def nextCard (s : AppState) : AppState :=
  if s.currentIndex < (s.currentStack.length : Int) - 1 then
    { s with timers := s.timers ++ [Timer.inc] }
  else
    goHome { s with alerts := s.alerts ++ ["Hai finito il mazzo! Torno alla home."] }

/-- Source `prevCard`: the guard is evaluated now, the decrement is deferred by
`setTimeout(..., 150)`. -/
def prevCard (s : AppState) : AppState :=
  if s.currentIndex > 0 then
    { s with timers := s.timers ++ [Timer.dec] }
  else s

/-- The body of `updateCard()` as the last statement of a callback: an exception it
throws is uncaught and the state reached at the throw stays. -/
def updateCardInCallback (s : AppState) : AppState :=
  match updateCard s with
  | .ok s1 => s1
  | .error s1 => { s1 with uncaught := s1.uncaught + 1 }

/-- The body of a deferred callback: `currentIndex++; updateCard()` for `inc`,
`currentIndex--; updateCard()` for `dec`. -/
def runTimer (t : Timer) (s : AppState) : AppState :=
  match t with
  | Timer.inc => updateCardInCallback { s with currentIndex := s.currentIndex + 1 }
  | Timer.dec => updateCardInCallback { s with currentIndex := s.currentIndex - 1 }

/-- The event loop fires the oldest pending callback; `none` when nothing is pending. -/
def fireTimer (s : AppState) : Option AppState :=
  match s.timers with
  | [] => none
  | t :: rest => some (runTimer t { s with timers := rest })

/-- What can happen after a session has started, as far as the position goes. -/
inductive NavEvent where
  | next
  | prev
  | fire
  deriving DecidableEq, Repr

/-- One event of the loop; firing with an empty queue is not an event and leaves the state. -/
def navStep (s : AppState) (e : NavEvent) : AppState :=
  match e with
  | NavEvent.next => nextCard s
  | NavEvent.prev => prevCard s
  | NavEvent.fire => (fireTimer s).getD s

/-- A finite sequence of events, run in order. -/
def navRun (s : AppState) (es : List NavEvent) : AppState :=
  es.foldl navStep s

/-- The bound the navigation guards aim at: `0 <= currentIndex <= currentStack.length - 1`. -/
def inBounds (s : AppState) : Prop :=
  0 ≤ s.currentIndex ∧ s.currentIndex ≤ (s.currentStack.length : Int) - 1

instance instDecidableInBounds (s : AppState) : Decidable (inBounds s) := by
  unfold inBounds; infer_instance

/-! ## Favourites -/

/-- Lower-case hexadecimal digit of a number below sixteen. -/
def hexDigit (n : Nat) : Char :=
  if n < 10 then Char.ofNat (48 + n) else Char.ofNat (87 + n)

/-- The escape `JSON.stringify` writes for one character of a string. -/
def jsonEscape (c : Char) : List Char :=
  let bs := Char.ofNat 92
  if c.toNat = 8 then [bs, 'b']
  else if c.toNat = 9 then [bs, 't']
  else if c.toNat = 10 then [bs, 'n']
  else if c.toNat = 12 then [bs, 'f']
  else if c.toNat = 13 then [bs, 'r']
  else if c.toNat = 34 then [bs, Char.ofNat 34]
  else if c.toNat = 92 then [bs, bs]
  else if c.toNat < 32 then [bs, 'u', '0', '0', hexDigit (c.toNat / 16), hexDigit (c.toNat % 16)]
  else [c]

/-- The text `JSON.stringify` produces for a string. -/
def jsonString (x : String) : String :=
  String.mk ([Char.ofNat 34] ++ x.data.flatMap jsonEscape ++ [Char.ofNat 34])

/-- The text `JSON.stringify` produces for an array of strings. -/
def jsonStringify (xs : List String) : String :=
  "[" ++ ",".intercalate (xs.map jsonString) ++ "]"

/-- The click handler of the favourite button.  Reading `.image` of an undefined
`currentStack[currentIndex]` throws before anything is changed.  The call
`localStorage.setItem` is not guarded: when the browser refuses it, the handler ends
there, after `favoriteImages` was updated and before `updateFavButtonState` runs. -/
def favBtnClick (s : AppState) : AppState :=
  match currentCard s with
  | none => { s with uncaught := s.uncaught + 1 }
  | some item =>
    let currentImg := item.image
    let s1 :=
      if s.favoriteImages.contains currentImg then
        { s with favoriteImages := s.favoriteImages.filter (fun id => id != currentImg) }
      else
        { s with favoriteImages := s.favoriteImages ++ [currentImg] }
    if s1.storageOk then
      let s2 := { s1 with stored := some (jsonStringify s1.favoriteImages) }
      updateFavButtonState currentImg s2
    else
      { s1 with uncaught := s1.uncaught + 1 }

/-! ## Gestures -/

/-- Source constant `swipeThreshold`. -/
def swipeThreshold : ℚ := 30

/-- Source `handleInputEnd`.  Pointer and touch coordinates are finite JS numbers, often
fractional; each is read as the rational it denotes, on which `Math.abs`, `>` and `<`
act exactly.  `minus` is the `-` of JS numbers (the exact difference, rounded to a
double); nothing below depends on how it rounds. -/
def handleInputEnd (minus : ℚ → ℚ → ℚ) (startX endX startY endY : ℚ) (s : AppState) :
    AppState :=
  let diffX := minus startX endX
  let diffY := minus startY endY
  if |diffX| > swipeThreshold then
    if diffX > 0 then nextCard s else prevCard s
  else if |diffX| < 10 ∧ |diffY| < 10 then
    { s with isFlipped := !s.isFlipped }
  else s

/-! ## Reference definitions, written from the specification's wording -/

/-- Reference flattening: one record per image, categories in dataset order, buildings in
category order, images in building order. -/
def flattenCategories (cats : List Category) : List CardRecord :=
  cats.flatMap (fun cat => cat.buildings.flatMap (fun b =>
    b.images.map (fun img => { name := b.name, category := cat.name, image := img })))

/-- Reference flattening of a whole dataset. -/
def flattenDataset (d : Dataset) : List CardRecord :=
  flattenCategories d.categories

/-- The intents the gesture interpreter can emit. -/
inductive Intent where
  | next
  | previous
  | flip
  | noIntent
  deriving DecidableEq, Repr

/-- Gesture resolution as the specification words it, on the two differences. -/
def specIntent (diffX diffY : ℚ) : Intent :=
  if |diffX| > 30 then
    if diffX > 0 then Intent.next else Intent.previous
  else if |diffX| < 10 ∧ |diffY| < 10 then Intent.flip
  else Intent.noIntent

/-- What each intent does to the page: next is `nextCard`, previous is `prevCard`,
flip toggles `is-flipped`, no intent changes nothing. -/
def applyIntent (i : Intent) (s : AppState) : AppState :=
  match i with
  | Intent.next => nextCard s
  | Intent.previous => prevCard s
  | Intent.flip => { s with isFlipped := !s.isFlipped }
  | Intent.noIntent => s

/-! ## Loop-free descriptions used in the proofs -/

/-- The card made for image `img` of building `b` in category `cat`. -/
def cardOf (cat : Category) (b : Building) (img : String) : CardRecord :=
  { name := b.name, category := cat.name, image := img }

/-- The cards `startSession` selects inside one category, written without a loop. -/
def selectedInCategory (mode : String) (favs : List String) (cat : Category) :
    List CardRecord :=
  cat.buildings.flatMap (fun b =>
    (b.images.filter (includeFlag mode favs cat)).map (cardOf cat b))

/-- The favourites list after one toggle of `img`: every occurrence removed when it was
a member, appended otherwise. -/
def toggled (favs : List String) (img : String) : List String :=
  if favs.contains img then favs.filter (fun id => id != img) else favs ++ [img]

/-- Value of a lower-case hexadecimal digit. -/
def unhex (c : Char) : Nat :=
  if c.toNat < 58 then c.toNat - 48 else c.toNat - 87

/-- Reads one escaped character back from the front of a JSON string body. -/
def jsonUnescape : List Char → Option (Char × List Char)
  | [] => none
  | c :: rest =>
    if c.toNat = 92 then
      match rest with
      | [] => none
      | e :: rest2 =>
        if e.toNat = 98 then some (Char.ofNat 8, rest2)
        else if e.toNat = 116 then some (Char.ofNat 9, rest2)
        else if e.toNat = 110 then some (Char.ofNat 10, rest2)
        else if e.toNat = 102 then some (Char.ofNat 12, rest2)
        else if e.toNat = 114 then some (Char.ofNat 13, rest2)
        else if e.toNat = 117 then
          match rest2 with
          | _ :: _ :: h1 :: h2 :: rest3 => some (Char.ofNat (16 * unhex h1 + unhex h2), rest3)
          | _ => none
        else some (e, rest2)
    else some (c, rest)

/-- The characters after the first element: a comma and the quoted string, per element. -/
def jsonRest (xs : List String) : List Char :=
  xs.flatMap (fun a => ',' :: (jsonString a).data)

/-! ## Sample data -/

/-- A page that has just loaded dataset `d` and found the favourites `favs` in a working
store (nothing stored when there are none). -/
def initialState (d : Dataset) (favs : List String) : AppState :=
  { appData := d, currentStack := [], currentIndex := 0, favoriteImages := favs,
    stored := if favs.isEmpty then none else some (jsonStringify favs),
    view := View.selection, isFlipped := false, shown := none,
    favActive := false, favCount := favs.length, alerts := [], timers := [], uncaught := 0,
    storageOk := true }

/-- The dataset of the end-to-end example: category Gothic (id g1), building Duomo,
images a.jpg and b.jpg. -/
def gothicData : Dataset :=
  ⟨[⟨"g1", "Gothic", [⟨"Duomo", ["a.jpg", "b.jpg"]⟩]⟩]⟩

/-- A dataset whose first two categories use the ids `all` and `favs`. -/
def reservedIdData : Dataset :=
  ⟨[⟨"all", "Varie", [⟨"Duomo", ["a.jpg"]⟩]⟩,
    ⟨"favs", "Preferiti", [⟨"Battistero", ["c.jpg"]⟩]⟩,
    ⟨"r1", "Roman", [⟨"Pantheon", ["b.jpg"]⟩]⟩]⟩

/-- A category without any image. -/
def emptyCategory : Category := ⟨"r0", "Romanico", []⟩

/-- The Gothic example followed by a category without images. -/
def gothicPlusEmpty : Dataset :=
  ⟨gothicData.categories ++ [emptyCategory]⟩

/-- Three pairwise distinct cards. -/
def sampleCards : List CardRecord :=
  [⟨"Duomo", "Gothic", "a.jpg"⟩, ⟨"Duomo", "Gothic", "b.jpg"⟩, ⟨"Pantheon", "Roman", "c.jpg"⟩]

/-- The draw that always picks index zero. -/
def drawZero : (i : Nat) → Fin (i + 1) := fun _ => 0

/-- The session on the two Gothic images, at position 0 on the stack b.jpg, a.jpg. -/
def gothicSession : AppState :=
  startSession "all" drawZero (initialState gothicData [])

/-- The same session once `nextCard` and its update have run: position 1, the last one. -/
def gothicSessionLast : AppState :=
  navRun gothicSession [NavEvent.next, NavEvent.fire]

/-- The Gothic example followed by a Roman category with one image. -/
def threeCardData : Dataset :=
  ⟨gothicData.categories ++ [⟨"r1", "Roman", [⟨"Pantheon", ["c.jpg"]⟩]⟩]⟩

/-- The session on all three images of `threeCardData`, at position 0. -/
def threeCardSession : AppState :=
  startSession "all" drawZero (initialState threeCardData [])

/-- The three-card session right after one `nextCard` call: still at position 0, with
that call's update pending. -/
def threeCardPendingNext : AppState :=
  navRun threeCardSession [NavEvent.next]

/-- The three-card session brought to position 2, right after one `prevCard` call:
still at position 2, with that call's update pending. -/
def threeCardPendingPrev : AppState :=
  navRun threeCardSession
    [NavEvent.next, NavEvent.fire, NavEvent.next, NavEvent.fire, NavEvent.prev]

/-- The two-card Gothic session in a browser that refuses `localStorage.setItem`. -/
def gothicSessionNoStore : AppState :=
  { gothicSession with storageOk := false }

/-! ## Lemmas on selection -/

theorem foldl_pushImage (mode : String) (favs : List String) (cat : Category)
    (b : Building) (imgs : List String) (st : List CardRecord) :
    imgs.foldl (pushImage mode favs cat b) st =
      st ++ (imgs.filter (includeFlag mode favs cat)).map (cardOf cat b) := by
  induction imgs generalizing st with
  | nil => simp
  | cons img rest ih =>
    rw [List.foldl_cons, ih]
    by_cases h : includeFlag mode favs cat img = true
    · simp [pushImage, h, cardOf, List.filter_cons]
    · simp [pushImage, h, List.filter_cons]

theorem foldl_buildings (mode : String) (favs : List String) (cat : Category)
    (bs : List Building) (st : List CardRecord) :
    bs.foldl (fun st build => build.images.foldl (pushImage mode favs cat build) st) st =
      st ++ bs.flatMap (fun b =>
        (b.images.filter (includeFlag mode favs cat)).map (cardOf cat b)) := by
  induction bs generalizing st with
  | nil => simp
  | cons b rest ih =>
    rw [List.foldl_cons, ih, foldl_pushImage]
    simp [List.append_assoc]

theorem collectFrom_eq (mode : String) (favs : List String) (cats : List Category)
    (st : List CardRecord) :
    collectFrom mode favs cats st = st ++ cats.flatMap (selectedInCategory mode favs) := by
  induction cats generalizing st with
  | nil => simp [collectFrom]
  | cons cat rest ih =>
    have h := ih (st ++ selectedInCategory mode favs cat)
    unfold collectFrom at h ⊢
    rw [List.foldl_cons, foldl_buildings]
    unfold selectedInCategory at h ⊢
    rw [h]
    simp [List.append_assoc]

theorem selectedCards_eq (mode : String) (favs : List String) (d : Dataset) :
    selectedCards mode favs d = d.categories.flatMap (selectedInCategory mode favs) := by
  simp [selectedCards, collectFrom_eq]

theorem flattenCategories_eq (cats : List Category) :
    flattenCategories cats = cats.flatMap (fun cat =>
      cat.buildings.flatMap (fun b => b.images.map (cardOf cat b))) := rfl

theorem selectedCards_all (favs : List String) (d : Dataset) :
    selectedCards "all" favs d = flattenDataset d := by
  rw [selectedCards_eq, flattenDataset, flattenCategories_eq]
  congr 1
  funext cat
  have h : includeFlag "all" favs cat = fun _ => true := by
    funext img; simp [includeFlag]
  simp [selectedInCategory, h]

theorem selectedCards_favs (favs : List String) (d : Dataset) :
    selectedCards "favs" favs d =
      (flattenDataset d).filter (fun card => favs.contains card.image) := by
  rw [selectedCards_eq, flattenDataset, flattenCategories_eq, List.filter_flatMap]
  congr 1
  funext cat
  have h : includeFlag "favs" favs cat = fun img => favs.contains img := by
    funext img; simp [includeFlag]
  rw [selectedInCategory, h, List.filter_flatMap]
  congr 1
  funext b
  rw [List.filter_map]
  rfl

theorem selectedCards_category (c : String) (hall : c ≠ "all") (hfav : c ≠ "favs")
    (favs : List String) (d : Dataset) :
    selectedCards c favs d =
      flattenCategories (d.categories.filter (fun cat => decide (cat.id = c))) := by
  rw [selectedCards_eq, flattenCategories_eq]
  induction d.categories with
  | nil => simp
  | cons cat rest ih =>
    rw [List.flatMap_cons, ih, List.filter_cons]
    by_cases h : cat.id = c
    · have hf : includeFlag c favs cat = fun _ => true := by
        funext img; simp [includeFlag, hall, hfav, h]
      simp [selectedInCategory, hf, h]
    · have hf : includeFlag c favs cat = fun _ => false := by
        funext img; simp [includeFlag, hall, hfav, h]
      simp [selectedInCategory, hf, h]

theorem foldl_add_length (bs : List Building) (n : Nat) :
    bs.foldl (fun acc b => acc + b.images.length) n =
      n + (bs.flatMap (fun b => b.images)).length := by
  induction bs generalizing n with
  | nil => simp
  | cons b rest ih => rw [List.foldl_cons, ih]; simp [Nat.add_assoc]

theorem countImages_eq (cat : Category) :
    countImages cat.buildings =
      (cat.buildings.flatMap (fun b => b.images.map (cardOf cat b))).length := by
  unfold countImages
  rw [foldl_add_length]
  induction cat.buildings with
  | nil => simp
  | cons b rest ih => simp at ih ⊢; omega

theorem foldl_totalImages (cats : List Category) (n : Nat) :
    cats.foldl (fun acc cat => acc + countImages cat.buildings) n =
      n + (flattenCategories cats).length := by
  induction cats generalizing n with
  | nil => simp [flattenCategories]
  | cons cat rest ih =>
    rw [List.foldl_cons, ih, countImages_eq]
    simp [flattenCategories_eq, Nat.add_assoc]

theorem totalImages_eq (d : Dataset) : totalImages d = (flattenDataset d).length := by
  simp [totalImages, foldl_totalImages, flattenDataset]

/-! ## Lemmas on the shuffle -/

theorem swapAt_length {α : Type} (xs : List α) (i j : Nat) :
    (swapAt xs i j).length = xs.length := by
  unfold swapAt
  split <;> simp

theorem swapAt_perm {α : Type} (xs : List α) (i j : Nat) : (swapAt xs i j).Perm xs := by
  classical
  unfold swapAt
  split
  · rename_i a b ha hb
    obtain ⟨hi, hia⟩ := List.getElem?_eq_some_iff.mp ha
    obtain ⟨hj, hjb⟩ := List.getElem?_eq_some_iff.mp hb
    rw [List.perm_iff_count]
    intro c
    have hj2 : j < (xs.set i b).length := by simpa using hj
    rw [List.count_set _ _ _ _ hj2, List.count_set _ _ _ _ hi]
    have h1 : (xs.set i b)[j] = b := by
      rw [List.getElem_set]; split <;> simp_all
    rw [h1]
    have h2 : (if a == c then 1 else 0) ≤ List.count c xs := by
      split
      · rename_i hac
        have : a = c := by simpa using hac
        subst this
        exact List.count_pos_iff.mpr (hia ▸ List.getElem_mem hi)
      · exact Nat.zero_le _
    rw [hia]
    omega
  · exact List.Perm.refl _

theorem shuffleFrom_perm {α : Type} (draw : (i : Nat) → Fin (i + 1)) (i : Nat)
    (xs : List α) : (shuffleFrom draw i xs).Perm xs := by
  induction i generalizing xs with
  | zero => exact List.Perm.refl _
  | succ i ih => exact (ih _).trans (swapAt_perm xs _ _)

theorem shuffle_perm {α : Type} (draw : (i : Nat) → Fin (i + 1)) (xs : List α) :
    (shuffle draw xs).Perm xs :=
  shuffleFrom_perm draw _ xs

/-- Reading the swapped list: position `i` holds the old `xs[j]`, position `j` the old
`xs[i]`, every other position is untouched. -/
theorem swapAt_getElem? {α : Type} (xs : List α) (i j k : Nat) (hi : i < xs.length)
    (hj : j < xs.length) :
    (swapAt xs i j)[k]? = if k = j then xs[i]? else if k = i then xs[j]? else xs[k]? := by
  unfold swapAt
  rw [List.getElem?_eq_getElem hi, List.getElem?_eq_getElem hj]
  simp only [List.getElem?_set, List.length_set]
  by_cases h1 : k = j
  · subst h1; simp [hi, hj]
  · by_cases h2 : k = i
    · subst h2; simp [hi, hj, h1, Ne.symm h1]
    · simp [h1, h2, Ne.symm h1, Ne.symm h2]

/-- The loop entered at `i` never touches a position above `i`. -/
theorem shuffleFrom_getElem?_above {α : Type} (draw : (i : Nat) → Fin (i + 1)) (i : Nat)
    (xs : List α) (k : Nat) (hk : i < k) : (shuffleFrom draw i xs)[k]? = xs[k]? := by
  induction i generalizing xs with
  | zero => rfl
  | succ i ih =>
    rw [shuffleFrom, ih _ (by omega)]
    by_cases hi : i + 1 < xs.length
    · have hj : (draw (i + 1)).val < xs.length := by
        have := (draw (i + 1)).isLt; omega
      rw [swapAt_getElem? xs _ _ k hi hj]
      have := (draw (i + 1)).isLt
      rw [if_neg (by omega), if_neg (by omega)]
    · unfold swapAt
      rw [List.getElem?_eq_none (by omega : xs.length ≤ i + 1)]

/-- After the loop entered at `i + 1`, position `i + 1` holds the element drawn there. -/
theorem shuffleFrom_getElem?_top {α : Type} (draw : (i : Nat) → Fin (i + 1)) (i : Nat)
    (xs : List α) (hi : i + 1 < xs.length) :
    (shuffleFrom draw (i + 1) xs)[i + 1]? = xs[(draw (i + 1)).val]? := by
  have hj : (draw (i + 1)).val < xs.length := by
    have := (draw (i + 1)).isLt; omega
  rw [shuffleFrom, shuffleFrom_getElem?_above draw i _ (i + 1) (by omega),
    swapAt_getElem? xs _ _ _ hi hj]
  by_cases h : i + 1 = (draw (i + 1)).val
  · rw [if_pos h, ← h]
  · rw [if_neg h, if_pos rfl]

/-- The loop entered at `i` reads only the draws of steps `1..i`. -/
theorem shuffleFrom_congr {α : Type} (d1 d2 : (i : Nat) → Fin (i + 1)) (i : Nat)
    (xs : List α) (h : ∀ k, 1 ≤ k → k ≤ i → d1 k = d2 k) :
    shuffleFrom d1 i xs = shuffleFrom d2 i xs := by
  induction i generalizing xs with
  | zero => rfl
  | succ i ih =>
    rw [shuffleFrom, shuffleFrom, h (i + 1) (by omega) (by omega)]
    exact ih _ (fun k h1 h2 => h k h1 (by omega))

/-- Distinct elements: equal results force equal draws at every step. -/
theorem shuffleFrom_injective {α : Type} (d1 d2 : (i : Nat) → Fin (i + 1)) (i : Nat)
    (xs : List α) (hnd : xs.Nodup) (hi : i < xs.length)
    (heq : shuffleFrom d1 i xs = shuffleFrom d2 i xs) :
    ∀ k, 1 ≤ k → k ≤ i → d1 k = d2 k := by
  induction i generalizing xs with
  | zero => intro k h1 h2; omega
  | succ i ih =>
    have hj1 : (d1 (i + 1)).val < xs.length := by
      have := (d1 (i + 1)).isLt; omega
    have hj2 : (d2 (i + 1)).val < xs.length := by
      have := (d2 (i + 1)).isLt; omega
    have htop : xs[(d1 (i + 1)).val]? = xs[(d2 (i + 1)).val]? := by
      rw [← shuffleFrom_getElem?_top d1 i xs hi, ← shuffleFrom_getElem?_top d2 i xs hi, heq]
    rw [List.getElem?_eq_getElem hj1, List.getElem?_eq_getElem hj2] at htop
    have hval : (d1 (i + 1)).val = (d2 (i + 1)).val :=
      (List.Nodup.getElem_inj_iff hnd).mp (Option.some.inj htop)
    have hd : d1 (i + 1) = d2 (i + 1) := Fin.ext hval
    rw [shuffleFrom, shuffleFrom, ← hd] at heq
    have hrest := ih (swapAt xs (i + 1) (d1 (i + 1)).val)
      ((swapAt_perm xs _ _).nodup_iff.mpr hnd) (by rw [swapAt_length]; omega) heq
    intro k h1 h2
    by_cases hk : k = i + 1
    · subst hk; exact hd
    · exact hrest k h1 (by omega)

/-- Distinct elements: every ordering that keeps the positions above `i` is reached. -/
theorem shuffleFrom_surjective {α : Type} (i : Nat) (xs ys : List α) (hnd : xs.Nodup)
    (hi : i < xs.length) (hp : ys.Perm xs) (habove : ∀ k, i < k → ys[k]? = xs[k]?) :
    ∃ d : (i : Nat) → Fin (i + 1), shuffleFrom d i xs = ys := by
  induction i generalizing xs with
  | zero =>
    refine ⟨fun _ => 0, ?_⟩
    rw [shuffleFrom]
    cases xs with
    | nil => simp at hi
    | cons x xt =>
      cases ys with
      | nil => simpa using hp.length_eq
      | cons y yt =>
        have ht : yt = xt := by
          apply List.ext_getElem?
          intro k
          simpa using habove (k + 1) (by omega)
        subst ht
        have h1 : ([y] ++ yt).Perm ([x] ++ yt) := hp
        have h2 := (List.perm_append_right_iff yt).mp h1
        have h3 : [y] = [x] := List.perm_singleton.mp h2
        simp at h3
        rw [h3]
  | succ i ih =>
    have hlen : ys.length = xs.length := hp.length_eq
    have hynd : ys.Nodup := hp.nodup_iff.mpr hnd
    have hiy : i + 1 < ys.length := by omega
    obtain ⟨j, hj, hjy⟩ := List.getElem_of_mem (hp.subset (List.getElem_mem hiy))
    have hjle : j < i + 1 + 1 := by
      by_contra hgt
      have h1 : ys[j]? = xs[j]? := habove j (by omega)
      have hjy2 : j < ys.length := by omega
      rw [List.getElem?_eq_getElem hjy2, List.getElem?_eq_getElem hj, hjy] at h1
      have h2 : j = i + 1 := (List.Nodup.getElem_inj_iff hynd).mp (Option.some.inj h1)
      omega
    have hrest : ∀ k, i < k → ys[k]? = (swapAt xs (i + 1) j)[k]? := by
      intro k hk
      rw [swapAt_getElem? xs _ _ k hi hj]
      by_cases h1 : k = j
      · have h2 : j = i + 1 := by omega
        rw [if_pos h1, h1, h2, List.getElem?_eq_getElem hiy, List.getElem?_eq_getElem hi]
        subst h2
        rw [hjy]
      · rw [if_neg h1]
        by_cases h2 : k = i + 1
        · rw [if_pos h2, h2, List.getElem?_eq_getElem hiy, List.getElem?_eq_getElem hj, hjy]
        · rw [if_neg h2]
          exact habove k (by omega)
    obtain ⟨d2, hd2⟩ := ih (swapAt xs (i + 1) j) ((swapAt_perm xs _ _).nodup_iff.mpr hnd)
      (by rw [swapAt_length]; omega) (hp.trans (swapAt_perm xs _ _).symm) hrest
    refine ⟨fun k => if h : j < k + 1 ∧ k = i + 1 then ⟨j, h.1⟩ else d2 k, ?_⟩
    rw [shuffleFrom]
    simp only [hjle, and_self, dite_true]
    rw [← hd2]
    apply shuffleFrom_congr
    intro k h1 h2
    have : ¬ (j < k + 1 ∧ k = i + 1) := by omega
    simp [this]

theorem card_drawSeq (n : Nat) : Fintype.card (DrawSeq n) = n.factorial := by
  rw [Fintype.card_pi]
  simp only [Fintype.card_fin]
  rw [Fin.prod_univ_eq_prod_range (fun i => i + 1) n]
  exact Finset.prod_range_add_one_eq_factorial n

theorem shuffle_extend_injective {α : Type} (xs : List α) (hnd : xs.Nodup)
    (d1 d2 : DrawSeq xs.length)
    (h : shuffle (extendDraws d1) xs = shuffle (extendDraws d2) xs) : d1 = d2 := by
  funext i
  by_cases h0 : i.val = 0
  · apply Fin.ext
    have h1 := (d1 i).isLt
    have h2 := (d2 i).isLt
    omega
  · have hk := shuffleFrom_injective (extendDraws d1) (extendDraws d2) (xs.length - 1) xs hnd
      (by have := i.isLt; omega) h i.val (by omega) (by have := i.isLt; omega)
    simpa [extendDraws, i.isLt] using hk

theorem shuffle_extend_surjective {α : Type} (xs ys : List α) (hnd : xs.Nodup)
    (hp : ys.Perm xs) : ∃ d : DrawSeq xs.length, shuffle (extendDraws d) xs = ys := by
  by_cases hn : xs.length = 0
  · have hx : xs = [] := List.length_eq_zero.mp hn
    subst hx
    have hy : ys = [] := List.perm_nil.mp hp
    subst hy
    exact ⟨fun i => 0, rfl⟩
  · obtain ⟨d, hd⟩ := shuffleFrom_surjective (xs.length - 1) xs ys hnd (by omega) hp (by
      intro k hk
      rw [List.getElem?_eq_none (by have := hp.length_eq; omega),
        List.getElem?_eq_none (by omega)])
    refine ⟨fun i => d i.val, ?_⟩
    rw [← hd]
    apply shuffleFrom_congr
    intro k h1 h2
    have hk : k < xs.length := by omega
    simp [extendDraws, hk]

theorem shuffle_length {α : Type} (draw : (i : Nat) → Fin (i + 1)) (xs : List α) :
    (shuffle draw xs).length = xs.length :=
  (shuffle_perm draw xs).length_eq

/-- The empty branch of `startSession`: only `currentStack` and the alerts change. -/
theorem startSession_empty (mode : String) (draw : (i : Nat) → Fin (i + 1)) (s : AppState)
    (h : selectedCards mode s.favoriteImages s.appData = []) :
    startSession mode draw s =
      { s with currentStack := [],
               alerts := s.alerts ++ ["No cards found for this selection."] } := by
  simp [startSession, h]

/-- The non-empty branch of `startSession`. -/
theorem startSession_nonempty (mode : String) (draw : (i : Nat) → Fin (i + 1))
    (s : AppState) (h : selectedCards mode s.favoriteImages s.appData ≠ []) :
    ∃ item, (shuffle draw (selectedCards mode s.favoriteImages s.appData))[0]? = some item ∧
      startSession mode draw s =
        { s with currentStack := shuffle draw (selectedCards mode s.favoriteImages s.appData),
                 currentIndex := 0, isFlipped := false, shown := some item,
                 favActive := s.favoriteImages.contains item.image,
                 view := View.flashcard } := by
  have hlen : 0 < (shuffle draw (selectedCards mode s.favoriteImages s.appData)).length := by
    rw [shuffle_length]; exact List.length_pos.mpr h
  refine ⟨(shuffle draw (selectedCards mode s.favoriteImages s.appData))[0], ?_, ?_⟩
  · exact List.getElem?_eq_getElem hlen
  · have h0 : (selectedCards mode s.favoriteImages s.appData).length ≠ 0 := by
      rw [shuffle_length] at hlen; omega
    simp [startSession, h0, updateCard, currentCard, List.getElem?_eq_getElem hlen,
      updateFavButtonState]

theorem startSession_stack (mode : String) (draw : (i : Nat) → Fin (i + 1)) (s : AppState) :
    (startSession mode draw s).currentStack =
      shuffle draw (selectedCards mode s.favoriteImages s.appData) := by
  by_cases h : selectedCards mode s.favoriteImages s.appData = []
  · rw [startSession_empty mode draw s h, h]; rfl
  · obtain ⟨item, _, heq⟩ := startSession_nonempty mode draw s h
    rw [heq]

/-! ## Lemmas on the serialization -/

theorem unhex_hexDigit (n : Nat) (h : n < 16) : unhex (hexDigit n) = n := by
  interval_cases n <;> decide

theorem char_eq_of_toNat (c : Char) (n : Nat) (h : c.toNat = n) : Char.ofNat n = c := by
  rw [← h, Char.ofNat_toNat]

theorem jsonUnescape_escape (c : Char) (X : List Char) :
    jsonUnescape (jsonEscape c ++ X) = some (c, X) := by
  unfold jsonEscape
  dsimp only
  split_ifs with h1 h2 h3 h4 h5 h6 h7 h8
  · simpa [jsonUnescape] using char_eq_of_toNat c 8 h1
  · simpa [jsonUnescape] using char_eq_of_toNat c 9 h2
  · simpa [jsonUnescape] using char_eq_of_toNat c 10 h3
  · simpa [jsonUnescape] using char_eq_of_toNat c 12 h4
  · simpa [jsonUnescape] using char_eq_of_toNat c 13 h5
  · simpa [jsonUnescape] using char_eq_of_toNat c 34 h6
  · simpa [jsonUnescape] using char_eq_of_toNat c 92 h7
  · have e1 := unhex_hexDigit (c.toNat / 16) (by omega)
    have e2 := unhex_hexDigit (c.toNat % 16) (by omega)
    have e3 : 16 * (c.toNat / 16) + c.toNat % 16 = c.toNat := Nat.div_add_mod _ _
    simp [jsonUnescape, e1, e2, e3]
  · simp [jsonUnescape, h7]

theorem jsonEscape_head (c : Char) (X : List Char) :
    ∃ h t, jsonEscape c ++ X = h :: t ∧ h.toNat ≠ 34 := by
  unfold jsonEscape
  dsimp only
  split_ifs with h1 h2 h3 h4 h5 h6 h7 h8
  all_goals first
    | exact ⟨Char.ofNat 92, _, rfl, by decide⟩
    | exact ⟨c, X, rfl, h6⟩

/-- A string body followed by its closing quote determines the string and what follows. -/
theorem jsonBody_inj (a b r1 r2 : List Char)
    (h : a.flatMap jsonEscape ++ Char.ofNat 34 :: r1 =
      b.flatMap jsonEscape ++ Char.ofNat 34 :: r2) : a = b ∧ r1 = r2 := by
  induction a generalizing b with
  | nil =>
    cases b with
    | nil => simpa using h
    | cons d b2 =>
      exfalso
      rw [List.flatMap_nil, List.nil_append, List.flatMap_cons, List.append_assoc] at h
      obtain ⟨hd, tl, he, hne⟩ := jsonEscape_head d (b2.flatMap jsonEscape ++ Char.ofNat 34 :: r2)
      rw [he] at h
      have : Char.ofNat 34 = hd := (List.cons.inj h).1
      exact hne (by rw [← this]; decide)
  | cons c a2 ih =>
    cases b with
    | nil =>
      exfalso
      rw [List.flatMap_nil, List.nil_append, List.flatMap_cons, List.append_assoc] at h
      obtain ⟨hd, tl, he, hne⟩ := jsonEscape_head c (a2.flatMap jsonEscape ++ Char.ofNat 34 :: r1)
      rw [he] at h
      have : hd = Char.ofNat 34 := (List.cons.inj h).1
      exact hne (by rw [this]; decide)
    | cons d b2 =>
      rw [List.flatMap_cons, List.flatMap_cons, List.append_assoc, List.append_assoc] at h
      have h2 := congrArg jsonUnescape h
      rw [jsonUnescape_escape, jsonUnescape_escape] at h2
      have h3 := Option.some.inj h2
      have hcd : c = d := (Prod.mk.inj h3).1
      have hrest := (Prod.mk.inj h3).2
      obtain ⟨hab, hr⟩ := ih b2 hrest
      exact ⟨by rw [hcd, hab], hr⟩

theorem jsonString_data (x : String) :
    (jsonString x).data = Char.ofNat 34 :: (x.data.flatMap jsonEscape ++ [Char.ofNat 34]) := rfl

theorem intercalate_go_data (acc sep : String) (l : List String) :
    (String.intercalate.go acc sep l).data =
      acc.data ++ l.flatMap (fun a => sep.data ++ a.data) := by
  induction l generalizing acc with
  | nil => simp [String.intercalate.go]
  | cons a rest ih =>
    rw [String.intercalate.go, ih]
    simp [List.append_assoc]

theorem jsonStringify_nil : (jsonStringify []).data = ['[', ']'] := rfl

theorem jsonStringify_cons (x : String) (rest : List String) :
    (jsonStringify (x :: rest)).data =
      '[' :: ((jsonString x).data ++ (jsonRest rest ++ [']'])) := by
  unfold jsonStringify jsonRest
  rw [List.map_cons, String.intercalate, String.data_append, String.data_append,
    intercalate_go_data, List.flatMap_map]
  simp [List.append_assoc]

theorem jsonRest_inj (xs ys : List String) (r1 r2 : List Char)
    (h : jsonRest xs ++ ']' :: r1 = jsonRest ys ++ ']' :: r2) : xs = ys := by
  induction xs generalizing ys with
  | nil =>
    cases ys with
    | nil => rfl
    | cons y ys2 =>
      exfalso
      simp [jsonRest] at h
  | cons x xs2 ih =>
    cases ys with
    | nil =>
      exfalso
      simp [jsonRest] at h
    | cons y ys2 =>
      have h1 : x.data.flatMap jsonEscape ++ Char.ofNat 34 :: (jsonRest xs2 ++ ']' :: r1) =
          y.data.flatMap jsonEscape ++ Char.ofNat 34 :: (jsonRest ys2 ++ ']' :: r2) := by
        simpa [jsonRest, jsonString_data, List.append_assoc] using h
      obtain ⟨hxy, hr⟩ := jsonBody_inj _ _ _ _ h1
      rw [String.ext hxy, ih ys2 hr]

/-- The serialization determines the list: `JSON.stringify` is injective on string arrays. -/
theorem jsonStringify_injective (xs ys : List String)
    (h : jsonStringify xs = jsonStringify ys) : xs = ys := by
  have hd := congrArg String.data h
  cases xs with
  | nil =>
    cases ys with
    | nil => rfl
    | cons y ys2 =>
      exfalso
      rw [jsonStringify_nil, jsonStringify_cons, jsonString_data] at hd
      simp at hd
  | cons x xs2 =>
    cases ys with
    | nil =>
      exfalso
      rw [jsonStringify_nil, jsonStringify_cons, jsonString_data] at hd
      simp at hd
    | cons y ys2 =>
      rw [jsonStringify_cons, jsonStringify_cons, jsonString_data, jsonString_data] at hd
      have h1 : x.data.flatMap jsonEscape ++ Char.ofNat 34 :: (jsonRest xs2 ++ [']']) =
          y.data.flatMap jsonEscape ++ Char.ofNat 34 :: (jsonRest ys2 ++ [']']) := by
        simpa [List.append_assoc] using hd
      obtain ⟨hxy, hr⟩ := jsonBody_inj _ _ _ _ h1
      rw [String.ext hxy, jsonRest_inj xs2 ys2 [] [] hr]


/-! ## Session building -/

/-- C1: for every dataset, favourites list and outcome of the draws, after
`startSession('all')` the stack is a permutation of the reference flattening of the
dataset (one record per image, in traversal order, with the owning building's and
category's names), and its length is the sum of `countImages` over the categories. -/
theorem startSession_all_perm (s : AppState) (draw : (i : Nat) → Fin (i + 1)) :
    (startSession "all" draw s).currentStack.Perm (flattenDataset s.appData) ∧
    selectedCards "all" s.favoriteImages s.appData = flattenDataset s.appData ∧
    (startSession "all" draw s).currentStack.length = totalImages s.appData := by
  have hstack := startSession_stack "all" draw s
  rw [selectedCards_all] at hstack
  refine ⟨?_, selectedCards_all _ _, ?_⟩
  · rw [hstack]; exact shuffle_perm draw _
  · rw [hstack, shuffle_length, totalImages_eq]

/-- C2, refuted as stated: with a category whose id is `all`, its card starts
`startSession('all')`, which also selects the image of category `r1`; with a category
whose id is `favs` and no favourites, its card selects nothing although the category
holds an image; and `all` selects cards in a dataset where no category has that id. -/
theorem category_mode_reserved_ids :
    selectedCards "all" [] reservedIdData ≠
      flattenCategories (reservedIdData.categories.filter (fun cat => decide (cat.id = "all"))) ∧
    (⟨"Pantheon", "Roman", "b.jpg"⟩ : CardRecord) ∈ selectedCards "all" [] reservedIdData ∧
    selectedCards "favs" [] reservedIdData = [] ∧
    flattenCategories (reservedIdData.categories.filter (fun cat => decide (cat.id = "favs")))
      = [⟨"Battistero", "Preferiti", "c.jpg"⟩] ∧
    (∀ cat ∈ gothicData.categories, cat.id ≠ "all") ∧
    selectedCards "all" [] gothicData ≠ [] := by
  decide

/-- C2, amended: for every string `c` other than the two reserved mode words, the cards
`startSession(c)` selects before shuffling are exactly the reference flattening of the
categories whose id is `c`; every selected card comes from an image of such a category;
and when no category has id `c` the selection is empty and the empty branch is taken. -/
theorem startSession_category (c : String) (hall : c ≠ "all") (hfav : c ≠ "favs")
    (s : AppState) (draw : (i : Nat) → Fin (i + 1)) :
    selectedCards c s.favoriteImages s.appData =
      flattenCategories (s.appData.categories.filter (fun cat => decide (cat.id = c))) ∧
    (∀ card ∈ selectedCards c s.favoriteImages s.appData,
      ∃ cat ∈ s.appData.categories, cat.id = c ∧
        ∃ b ∈ cat.buildings, card.image ∈ b.images ∧ card = cardOf cat b card.image) ∧
    ((∀ cat ∈ s.appData.categories, cat.id ≠ c) →
      selectedCards c s.favoriteImages s.appData = [] ∧
      startSession c draw s =
        { s with currentStack := [],
                 alerts := s.alerts ++ ["No cards found for this selection."] }) := by
  have hsel := selectedCards_category c hall hfav s.favoriteImages s.appData
  refine ⟨hsel, ?_, ?_⟩
  · intro card hcard
    rw [hsel, flattenCategories_eq] at hcard
    simp only [List.mem_flatMap, List.mem_filter, List.mem_map, decide_eq_true_eq] at hcard
    obtain ⟨cat, ⟨hcat, hid⟩, b, hb, img, himg, hmk⟩ := hcard
    refine ⟨cat, hcat, hid, b, hb, ?_, ?_⟩
    · rw [← hmk]; exact himg
    · rw [← hmk]; rfl
  · intro hno
    have hnil : selectedCards c s.favoriteImages s.appData = [] := by
      rw [hsel]
      have : s.appData.categories.filter (fun cat => decide (cat.id = c)) = [] := by
        rw [List.filter_eq_nil_iff]
        intro cat hcat
        simpa using hno cat hcat
      rw [this]; rfl
    exact ⟨hnil, startSession_empty c draw s hnil⟩

/-- Witness for `startSession_category`: the Gothic example with category id `g1`. -/
theorem startSession_category_witness :
    "g1" ≠ "all" ∧ "g1" ≠ "favs" ∧
    selectedCards "g1" [] gothicData =
      [⟨"Duomo", "Gothic", "a.jpg"⟩, ⟨"Duomo", "Gothic", "b.jpg"⟩] :=
  ⟨by decide, by decide,
    (startSession_category "g1" (by decide) (by decide) (initialState gothicData [])
      drawZero).1.trans (by decide)⟩

/-- C3: in the favourites mode (`startSession('favs')`, what the 'Your Favorites' card
starts) the selection before shuffling is the reference flattening filtered by membership
of the image in the favourites, in traversal order and one card per dataset occurrence,
and the resulting stack is a permutation of it.  In the Gothic example with favourite
`a.jpg` the stack is the single card Duomo / Gothic / `a.jpg`, whatever the draws. -/
theorem startSession_favs (s : AppState) (draw : (i : Nat) → Fin (i + 1)) :
    selectedCards "favs" s.favoriteImages s.appData =
      (flattenDataset s.appData).filter (fun card => s.favoriteImages.contains card.image) ∧
    (startSession "favs" draw s).currentStack.Perm
      ((flattenDataset s.appData).filter (fun card => s.favoriteImages.contains card.image)) ∧
    favCardClick draw s = (if s.favCount > 0 then startSession "favs" draw s else s) ∧
    (startSession "favs" draw (initialState gothicData ["a.jpg"])).currentStack =
      [⟨"Duomo", "Gothic", "a.jpg"⟩] ∧
    favCardClick draw (initialState gothicData ["a.jpg"]) =
      startSession "favs" draw (initialState gothicData ["a.jpg"]) := by
  refine ⟨selectedCards_favs _ _, ?_, rfl, ?_, ?_⟩
  · rw [startSession_stack, selectedCards_favs]
    exact shuffle_perm draw _
  · rw [startSession_stack]
    rfl
  · rfl

/-- C5, refuted as stated: after a session on both Gothic images and a return home,
the card of a category without images takes the empty branch and leaves `currentStack`
empty, not equal to the two-card stack it held before the call. -/
theorem startSession_empty_resets_stack :
    selectedCards emptyCategory.id [] gothicPlusEmpty = [] ∧
    (goHome (startSession "all" drawZero (initialState gothicPlusEmpty []))).currentStack =
      [⟨"Duomo", "Gothic", "b.jpg"⟩, ⟨"Duomo", "Gothic", "a.jpg"⟩] ∧
    (categoryCardClick emptyCategory drawZero
      (goHome (startSession "all" drawZero (initialState gothicPlusEmpty [])))).currentStack
      = [] ∧
    (categoryCardClick emptyCategory drawZero
      (goHome (startSession "all" drawZero (initialState gothicPlusEmpty [])))).currentStack
      ≠ (goHome (startSession "all" drawZero (initialState gothicPlusEmpty []))).currentStack := by
  decide

/-- C5, amended: when no image is selected, `startSession` only appends its alert and
leaves `currentStack` empty; the view (so the flashcard view is not entered),
`currentIndex` and every other variable keep their values. -/
theorem startSession_empty_selection (mode : String) (draw : (i : Nat) → Fin (i + 1))
    (s : AppState) (h : selectedCards mode s.favoriteImages s.appData = []) :
    startSession mode draw s =
      { s with currentStack := [],
               alerts := s.alerts ++ ["No cards found for this selection."] } ∧
    (startSession mode draw s).currentIndex = s.currentIndex ∧
    (startSession mode draw s).view = s.view ∧
    (startSession mode draw s).currentStack = [] := by
  rw [startSession_empty mode draw s h]
  exact ⟨rfl, rfl, rfl, rfl⟩

/-- Witness for `startSession_empty_selection`: the category without images, after a
session on the two Gothic images. -/
theorem startSession_empty_selection_witness :
    selectedCards "r0" [] gothicPlusEmpty = [] ∧
    (startSession "r0" drawZero
      (goHome (startSession "all" drawZero (initialState gothicPlusEmpty [])))).currentIndex
      = 0 ∧
    (startSession "r0" drawZero
      (goHome (startSession "all" drawZero (initialState gothicPlusEmpty [])))).view
      = View.selection :=
  ⟨by decide,
    (startSession_empty_selection "r0" drawZero
      (goHome (startSession "all" drawZero (initialState gothicPlusEmpty [])))
      (by decide)).2.1.trans (by decide),
    (startSession_empty_selection "r0" drawZero
      (goHome (startSession "all" drawZero (initialState gothicPlusEmpty [])))
      (by decide)).2.2.1.trans (by decide)⟩

/-! ## The shuffle is unbiased -/

/-- C6: for a stack of `n` pairwise distinct cards, sending a draw sequence (one `j_i` in
`0..i` per loop index) to the order the loop of `startSession` produces is a bijection
onto the orderings of the stack; there are `n!` draw sequences and `n!` orderings, each
ordering comes from exactly one draw sequence, so under uniform independent draws each
has probability `1 / n!`.  The stack `startSession` leaves is this shuffle of its
selection. -/
theorem shuffle_unbiased (xs : List CardRecord) (hnd : xs.Nodup) :
    Function.Bijective (fun d : DrawSeq xs.length =>
      (⟨shuffle (extendDraws d) xs, shuffle_perm _ xs⟩ :
        {ys : List CardRecord // ys.Perm xs})) ∧
    Fintype.card (DrawSeq xs.length) = xs.length.factorial ∧
    Nat.card {ys : List CardRecord // ys.Perm xs} = xs.length.factorial ∧
    (∀ ys : List CardRecord, ys.Perm xs →
      ((Finset.univ.filter
          (fun d : DrawSeq xs.length => shuffle (extendDraws d) xs = ys)).card : ℚ) /
        (Fintype.card (DrawSeq xs.length) : ℚ) = 1 / (xs.length.factorial : ℚ)) ∧
    (∀ (mode : String) (draw : (i : Nat) → Fin (i + 1)) (s : AppState),
      (startSession mode draw s).currentStack =
        shuffle draw (selectedCards mode s.favoriteImages s.appData)) := by
  have hbij : Function.Bijective (fun d : DrawSeq xs.length =>
      (⟨shuffle (extendDraws d) xs, shuffle_perm _ xs⟩ :
        {ys : List CardRecord // ys.Perm xs})) := by
    constructor
    · intro d1 d2 h
      exact shuffle_extend_injective xs hnd d1 d2 (congrArg Subtype.val h)
    · intro ⟨ys, hp⟩
      obtain ⟨d, hd⟩ := shuffle_extend_surjective xs ys hnd hp
      exact ⟨d, Subtype.ext hd⟩
  refine ⟨hbij, card_drawSeq _, ?_, ?_, startSession_stack⟩
  · rw [← Nat.card_eq_of_bijective _ hbij, Nat.card_eq_fintype_card, card_drawSeq]
  · intro ys hp
    obtain ⟨d0, hd0⟩ := shuffle_extend_surjective xs ys hnd hp
    have hone : (Finset.univ.filter
        (fun d : DrawSeq xs.length => shuffle (extendDraws d) xs = ys)).card = 1 := by
      rw [Finset.card_eq_one]
      refine ⟨d0, ?_⟩
      ext d
      simp only [Finset.mem_filter, Finset.mem_univ, true_and, Finset.mem_singleton]
      constructor
      · intro h
        exact shuffle_extend_injective xs hnd d d0 (h.trans hd0.symm)
      · intro h
        rw [h]; exact hd0
    rw [hone, card_drawSeq]
    simp

/-- Witness for `shuffle_unbiased`: three distinct cards, six draw sequences. -/
theorem shuffle_unbiased_witness :
    sampleCards.Nodup ∧
    Function.Bijective (fun d : DrawSeq sampleCards.length =>
      (⟨shuffle (extendDraws d) sampleCards, shuffle_perm _ sampleCards⟩ :
        {ys : List CardRecord // ys.Perm sampleCards})) ∧
    Fintype.card (DrawSeq sampleCards.length) = 6 :=
  ⟨by decide, (shuffle_unbiased sampleCards (by decide)).1,
    (shuffle_unbiased sampleCards (by decide)).2.1⟩

/-! ## Navigation -/

theorem currentCard_of_inBounds (s : AppState) (hb : inBounds s) :
    ∃ item, currentCard s = some item ∧ s.currentStack[s.currentIndex.toNat]? = some item := by
  obtain ⟨h0, h1⟩ := hb
  have hlt : s.currentIndex.toNat < s.currentStack.length := by omega
  exact ⟨s.currentStack[s.currentIndex.toNat], by simp [currentCard, h0, hlt],
    List.getElem?_eq_getElem hlt⟩

theorem updateCardInCallback_ok (t : AppState) (item : CardRecord)
    (h : currentCard t = some item) :
    updateCardInCallback t =
      { t with isFlipped := false, shown := some item,
               favActive := t.favoriteImages.contains item.image } := by
  have h1 : currentCard { t with isFlipped := false } = some item := h
  simp [updateCardInCallback, updateCard, h1, updateFavButtonState]

theorem updateCardInCallback_index_stack (t : AppState) :
    (updateCardInCallback t).currentIndex = t.currentIndex ∧
      (updateCardInCallback t).currentStack = t.currentStack := by
  rcases h : currentCard { t with isFlipped := false } with _ | item
  · simp [updateCardInCallback, updateCard, h]
  · simp [updateCardInCallback, updateCard, h, updateFavButtonState]

theorem runTimer_index_stack (tm : Timer) (t : AppState) :
    (runTimer tm t).currentIndex =
        (match tm with
         | Timer.inc => t.currentIndex + 1
         | Timer.dec => t.currentIndex - 1) ∧
      (runTimer tm t).currentStack = t.currentStack := by
  cases tm
  · exact updateCardInCallback_index_stack { t with currentIndex := t.currentIndex + 1 }
  · exact updateCardInCallback_index_stack { t with currentIndex := t.currentIndex - 1 }

/-- C4, violated by the code: on the two-card Gothic session, two `nextCard` calls made
before either deferred update fires both pass the guard at position 0; after the two
updates `currentIndex` is 2 with a stack of length 2, `currentStack[currentIndex]` is
undefined and `updateCard` has thrown once.  Symmetrically, from position 1 two `prevCard`
calls followed by their updates leave `currentIndex` at -1. -/
theorem double_step_leaves_bounds :
    (navRun (startSession "all" drawZero (initialState gothicData []))
      [NavEvent.next, NavEvent.next, NavEvent.fire, NavEvent.fire]).currentIndex = 2 ∧
    (navRun (startSession "all" drawZero (initialState gothicData []))
      [NavEvent.next, NavEvent.next, NavEvent.fire, NavEvent.fire]).currentStack.length = 2 ∧
    ¬ inBounds (navRun (startSession "all" drawZero (initialState gothicData []))
      [NavEvent.next, NavEvent.next, NavEvent.fire, NavEvent.fire]) ∧
    currentCard (navRun (startSession "all" drawZero (initialState gothicData []))
      [NavEvent.next, NavEvent.next, NavEvent.fire, NavEvent.fire]) = none ∧
    (navRun (startSession "all" drawZero (initialState gothicData []))
      [NavEvent.next, NavEvent.next, NavEvent.fire, NavEvent.fire]).uncaught = 1 ∧
    inBounds (navRun (startSession "all" drawZero (initialState gothicData []))
      [NavEvent.next, NavEvent.fire]) ∧
    (navRun (startSession "all" drawZero (initialState gothicData []))
      [NavEvent.next, NavEvent.fire, NavEvent.prev, NavEvent.prev, NavEvent.fire,
        NavEvent.fire]).currentIndex = -1 := by
  decide

/-- C7, refuted as stated: the three-card session right after one `nextCard` call is an
active session at the in-bounds position 0 (not the last one) with that call's update
pending; a further `nextCard` there passes the guard, and once its deferred update has
run (the queue is empty again) `currentIndex` is 2, not 0 + 1.  The position stays in
bounds here. -/
theorem nextCard_with_pending_update :
    inBounds threeCardPendingNext ∧
    threeCardPendingNext.currentStack.length = 3 ∧
    threeCardPendingNext.currentIndex = 0 ∧
    threeCardPendingNext.timers = [Timer.inc] ∧
    (nextCard threeCardPendingNext).timers = [Timer.inc, Timer.inc] ∧
    (navRun threeCardPendingNext [NavEvent.next, NavEvent.fire, NavEvent.fire]).timers = [] ∧
    (navRun threeCardPendingNext [NavEvent.next, NavEvent.fire, NavEvent.fire]).currentIndex
      = 2 ∧
    (navRun threeCardPendingNext [NavEvent.next, NavEvent.fire, NavEvent.fire]).currentIndex
      ≠ threeCardPendingNext.currentIndex + 1 ∧
    inBounds (navRun threeCardPendingNext [NavEvent.next, NavEvent.fire, NavEvent.fire]) := by
  decide

/-- C7, amended: in an active session at an in-bounds position `p`, `nextCard` at the last
position alerts, goes home and leaves `currentIndex` and `currentStack` alone, scheduling
nothing; at an earlier position it signals nothing and schedules exactly one update, which
adds exactly one to `currentIndex` whenever it runs; when no other update is pending at
the call, once that update has run `currentIndex = p + 1`, on the card at `p + 1` and
without an error; `currentStack` is unchanged throughout. -/
theorem nextCard_spec (s : AppState) (hb : inBounds s) :
    (s.currentIndex = (s.currentStack.length : Int) - 1 →
      nextCard s = goHome { s with
        alerts := s.alerts ++ ["Hai finito il mazzo! Torno alla home."] } ∧
      (nextCard s).alerts = s.alerts ++ ["Hai finito il mazzo! Torno alla home."] ∧
      (nextCard s).view = View.selection ∧
      (nextCard s).currentIndex = s.currentIndex ∧
      (nextCard s).currentStack = s.currentStack ∧
      (nextCard s).timers = s.timers) ∧
    (s.currentIndex < (s.currentStack.length : Int) - 1 →
      nextCard s = { s with timers := s.timers ++ [Timer.inc] } ∧
      (∀ t : AppState, (runTimer Timer.inc t).currentIndex = t.currentIndex + 1 ∧
        (runTimer Timer.inc t).currentStack = t.currentStack) ∧
      (s.timers = [] →
        ∃ s2, fireTimer (nextCard s) = some s2 ∧
          s2.currentIndex = s.currentIndex + 1 ∧
          s2.currentStack = s.currentStack ∧
          s2.shown = s.currentStack[(s.currentIndex + 1).toNat]? ∧
          s2.timers = [] ∧ s2.alerts = s.alerts ∧ s2.view = s.view ∧
          s2.uncaught = s.uncaught ∧ inBounds s2)) := by
  obtain ⟨h0, h1⟩ := hb
  constructor
  · intro hlast
    have hng : ¬ s.currentIndex < (s.currentStack.length : Int) - 1 := by omega
    simp [nextCard, hng, goHome, initSelectionView]
  · intro hlt
    refine ⟨by simp [nextCard, hlt], fun t => runTimer_index_stack Timer.inc t, ?_⟩
    intro hq
    have hlen : (s.currentIndex + 1).toNat < s.currentStack.length := by omega
    have hcard : currentCard { s with timers := [], currentIndex := s.currentIndex + 1 } =
        some (s.currentStack[(s.currentIndex + 1).toNat]) := by
      have h2 : 0 ≤ s.currentIndex + 1 := by omega
      simp [currentCard, h2, hlen]
    refine ⟨{ s with timers := [], currentIndex := s.currentIndex + 1, isFlipped := false,
                     shown := some (s.currentStack[(s.currentIndex + 1).toNat]),
                     favActive := s.favoriteImages.contains
                       (s.currentStack[(s.currentIndex + 1).toNat]).image }, ?_, ?_⟩
    · simp only [nextCard, hlt, if_true, fireTimer, hq, List.nil_append, runTimer]
      rw [updateCardInCallback_ok _ _ hcard]
    · refine ⟨rfl, rfl, ?_, rfl, rfl, rfl, rfl, ?_⟩
      · exact (List.getElem?_eq_getElem hlen).symm
      · constructor
        · show 0 ≤ s.currentIndex + 1
          omega
        · show s.currentIndex + 1 ≤ (s.currentStack.length : Int) - 1
          omega

/-- Witness for `nextCard_spec`: the two-card Gothic session at position 0 (an earlier
position, nothing pending) and at position 1 (the last one). -/
theorem nextCard_spec_witness :
    inBounds gothicSession ∧
    gothicSession.currentIndex < (gothicSession.currentStack.length : Int) - 1 ∧
    gothicSession.timers = [] ∧
    nextCard gothicSession = { gothicSession with timers := gothicSession.timers ++ [Timer.inc] } ∧
    (∃ s2, fireTimer (nextCard gothicSession) = some s2 ∧
      s2.currentIndex = gothicSession.currentIndex + 1 ∧
      s2.currentStack = gothicSession.currentStack) ∧
    inBounds gothicSessionLast ∧
    gothicSessionLast.currentIndex = (gothicSessionLast.currentStack.length : Int) - 1 ∧
    (nextCard gothicSessionLast).currentIndex = gothicSessionLast.currentIndex :=
  ⟨by decide, by decide, by decide,
    ((nextCard_spec gothicSession (by decide)).2 (by decide)).1,
    (((nextCard_spec gothicSession (by decide)).2 (by decide)).2.2 (by decide)).imp
      (fun _ h => ⟨h.1, h.2.1, h.2.2.1⟩),
    by decide, by decide,
    ((nextCard_spec gothicSessionLast (by decide)).1 (by decide)).2.2.2.1⟩

/-- C8, refuted as stated: the three-card session at position 2 right after one `prevCard`
call is an active session at an in-bounds position above 0 with that call's update
pending; a further `prevCard` there passes the guard, and once its deferred update has
run (the queue is empty again) `currentIndex` is 0, not 2 - 1.  The position stays in
bounds here. -/
theorem prevCard_with_pending_update :
    inBounds threeCardPendingPrev ∧
    threeCardPendingPrev.currentStack.length = 3 ∧
    threeCardPendingPrev.currentIndex = 2 ∧
    threeCardPendingPrev.timers = [Timer.dec] ∧
    (prevCard threeCardPendingPrev).timers = [Timer.dec, Timer.dec] ∧
    (navRun threeCardPendingPrev [NavEvent.prev, NavEvent.fire, NavEvent.fire]).timers = [] ∧
    (navRun threeCardPendingPrev [NavEvent.prev, NavEvent.fire, NavEvent.fire]).currentIndex
      = 0 ∧
    (navRun threeCardPendingPrev [NavEvent.prev, NavEvent.fire, NavEvent.fire]).currentIndex
      ≠ threeCardPendingPrev.currentIndex - 1 ∧
    inBounds (navRun threeCardPendingPrev [NavEvent.prev, NavEvent.fire, NavEvent.fire]) := by
  decide

/-- C8, amended: in an active session at an in-bounds position `p`, `prevCard` at position 0
returns the state untouched (position, stack, shown card, nothing scheduled); at `p > 0`
it schedules exactly one update, which subtracts exactly one from `currentIndex` whenever
it runs; when no other update is pending at the call, once that update has run
`currentIndex = p - 1`, on the card at `p - 1` and without an error; `currentStack` is
unchanged. -/
theorem prevCard_spec (s : AppState) (hb : inBounds s) :
    (s.currentIndex = 0 → prevCard s = s) ∧
    (0 < s.currentIndex →
      prevCard s = { s with timers := s.timers ++ [Timer.dec] } ∧
      (∀ t : AppState, (runTimer Timer.dec t).currentIndex = t.currentIndex - 1 ∧
        (runTimer Timer.dec t).currentStack = t.currentStack) ∧
      (s.timers = [] →
        ∃ s2, fireTimer (prevCard s) = some s2 ∧
          s2.currentIndex = s.currentIndex - 1 ∧
          s2.currentStack = s.currentStack ∧
          s2.shown = s.currentStack[(s.currentIndex - 1).toNat]? ∧
          s2.timers = [] ∧ s2.alerts = s.alerts ∧ s2.view = s.view ∧
          s2.uncaught = s.uncaught ∧ inBounds s2)) := by
  obtain ⟨h0, h1⟩ := hb
  constructor
  · intro hz
    simp [prevCard, hz]
  · intro hpos
    refine ⟨by simp [prevCard, hpos], fun t => runTimer_index_stack Timer.dec t, ?_⟩
    intro hq
    have hlen : (s.currentIndex - 1).toNat < s.currentStack.length := by omega
    have hcard : currentCard { s with timers := [], currentIndex := s.currentIndex - 1 } =
        some (s.currentStack[(s.currentIndex - 1).toNat]) := by
      have h2 : 0 ≤ s.currentIndex - 1 := by omega
      simp [currentCard, h2, hlen]
    refine ⟨{ s with timers := [], currentIndex := s.currentIndex - 1, isFlipped := false,
                     shown := some (s.currentStack[(s.currentIndex - 1).toNat]),
                     favActive := s.favoriteImages.contains
                       (s.currentStack[(s.currentIndex - 1).toNat]).image }, ?_, ?_⟩
    · simp only [prevCard, gt_iff_lt, hpos, if_true, fireTimer, hq, List.nil_append, runTimer]
      rw [updateCardInCallback_ok _ _ hcard]
    · refine ⟨rfl, rfl, ?_, rfl, rfl, rfl, rfl, ?_⟩
      · exact (List.getElem?_eq_getElem hlen).symm
      · constructor
        · show 0 ≤ s.currentIndex - 1
          omega
        · show s.currentIndex - 1 ≤ (s.currentStack.length : Int) - 1
          omega

/-- Witness for `prevCard_spec`: the two-card Gothic session at position 0 and at
position 1 (nothing pending). -/
theorem prevCard_spec_witness :
    inBounds gothicSession ∧ gothicSession.currentIndex = 0 ∧
    prevCard gothicSession = gothicSession ∧
    inBounds gothicSessionLast ∧ 0 < gothicSessionLast.currentIndex ∧
    gothicSessionLast.timers = [] ∧
    prevCard gothicSessionLast =
      { gothicSessionLast with timers := gothicSessionLast.timers ++ [Timer.dec] } ∧
    (∃ s2, fireTimer (prevCard gothicSessionLast) = some s2 ∧
      s2.currentIndex = gothicSessionLast.currentIndex - 1 ∧
      s2.currentStack = gothicSessionLast.currentStack) :=
  ⟨by decide, by decide,
    (prevCard_spec gothicSession (by decide)).1 (by decide),
    by decide, by decide, by decide,
    ((prevCard_spec gothicSessionLast (by decide)).2 (by decide)).1,
    (((prevCard_spec gothicSessionLast (by decide)).2 (by decide)).2.2 (by decide)).imp
      (fun _ h => ⟨h.1, h.2.1, h.2.2.1⟩)⟩

/-! ## Gestures -/

/-- C9: for all start and end coordinates (rational-valued, fractional ones included) and
whatever rounding the subtraction applies, `handleInputEnd` does what the intent
classified from `diffX = startX - endX` and `diffY = startY - endY` says: next
(`nextCard`) when `|diffX| > 30` and `diffX > 0`, previous (`prevCard`) when `|diffX| > 30`
otherwise, flip (toggle `is-flipped`, position and stack unchanged) when `|diffX| < 10` and
`|diffY| < 10`, and nothing at all in every other case; the four cases are the four values
of one function.  The differences (40, 5), (-40, 5), (5, 3), (20, 2) give next, previous,
flip, none; both thresholds are strict (30 and 10 themselves give none, 30.5 gives next,
9.5 gives flip). -/
theorem handleInputEnd_classification (minus : ℚ → ℚ → ℚ) (startX endX startY endY : ℚ)
    (s : AppState) :
    handleInputEnd minus startX endX startY endY s =
      applyIntent (specIntent (minus startX endX) (minus startY endY)) s ∧
    (∀ diffX diffY : ℚ,
      (specIntent diffX diffY = Intent.next ↔ 30 < |diffX| ∧ 0 < diffX) ∧
      (specIntent diffX diffY = Intent.previous ↔ 30 < |diffX| ∧ diffX ≤ 0) ∧
      (specIntent diffX diffY = Intent.flip ↔ |diffX| < 10 ∧ |diffY| < 10) ∧
      (specIntent diffX diffY = Intent.noIntent ↔
        |diffX| ≤ 30 ∧ ¬ (|diffX| < 10 ∧ |diffY| < 10))) ∧
    applyIntent Intent.next s = nextCard s ∧
    applyIntent Intent.previous s = prevCard s ∧
    applyIntent Intent.flip s = { s with isFlipped := !s.isFlipped } ∧
    (applyIntent Intent.flip s).currentIndex = s.currentIndex ∧
    (applyIntent Intent.flip s).currentStack = s.currentStack ∧
    applyIntent Intent.noIntent s = s ∧
    specIntent 40 5 = Intent.next ∧ specIntent (-40) 5 = Intent.previous ∧
    specIntent 5 3 = Intent.flip ∧ specIntent 20 2 = Intent.noIntent ∧
    specIntent (61 / 2) 0 = Intent.next ∧ specIntent 30 0 = Intent.noIntent ∧
    specIntent (-61 / 2) 0 = Intent.previous ∧ specIntent (-30) 0 = Intent.noIntent ∧
    specIntent (19 / 2) (-19 / 2) = Intent.flip ∧ specIntent 10 0 = Intent.noIntent ∧
    specIntent 0 10 = Intent.noIntent ∧
    handleInputEnd (fun a b => a - b) 40 0 5 0 s = nextCard s ∧
    handleInputEnd (fun a b => a - b) (-40) 0 5 0 s = prevCard s ∧
    handleInputEnd (fun a b => a - b) 5 0 3 0 s = { s with isFlipped := !s.isFlipped } ∧
    handleInputEnd (fun a b => a - b) 20 0 2 0 s = s ∧
    handleInputEnd (fun a b => a - b) (201 / 2) 70 3 3 s = nextCard s ∧
    handleInputEnd (fun a b => a - b) (159 / 2) 70 3 3 s =
      { s with isFlipped := !s.isFlipped } := by
  have hmain : ∀ (m : ℚ → ℚ → ℚ) (a b c d : ℚ), handleInputEnd m a b c d s =
      applyIntent (specIntent (m a b) (m c d)) s := by
    intro m a b c d
    unfold handleInputEnd specIntent swipeThreshold
    dsimp only
    by_cases h1 : |m a b| > 30
    · by_cases h2 : m a b > 0
      · simp [h1, h2, applyIntent]
      · simp [h1, h2, applyIntent]
    · by_cases h3 : |m a b| < 10 ∧ |m c d| < 10
      · simp only [h1, h3, if_true, if_false, and_self, applyIntent]
      · simp only [h1, h3, if_false, applyIntent]
  have hclass : ∀ diffX diffY : ℚ,
      (specIntent diffX diffY = Intent.next ↔ 30 < |diffX| ∧ 0 < diffX) ∧
      (specIntent diffX diffY = Intent.previous ↔ 30 < |diffX| ∧ diffX ≤ 0) ∧
      (specIntent diffX diffY = Intent.flip ↔ |diffX| < 10 ∧ |diffY| < 10) ∧
      (specIntent diffX diffY = Intent.noIntent ↔
        |diffX| ≤ 30 ∧ ¬ (|diffX| < 10 ∧ |diffY| < 10)) := by
    intro diffX diffY
    unfold specIntent
    by_cases h1 : |diffX| > 30
    · have h4 : ¬ |diffX| < 10 := by
        intro h; have : (30 : ℚ) < 10 := lt_trans h1 h; norm_num at this
      have h5 : ¬ |diffX| ≤ 30 := not_le.mpr h1
      by_cases h2 : diffX > 0
      · have h6 : ¬ diffX ≤ 0 := not_le.mpr h2
        simp [h1, h2, h4, h5, h6]
      · have h6 : diffX ≤ 0 := not_lt.mp h2
        simp [h1, h2, h4, h5, h6]
    · have h5 : |diffX| ≤ 30 := not_lt.mp h1
      by_cases h3 : |diffX| < 10 ∧ |diffY| < 10
      · simp [h1, h3, h5]
      · simp [h1, h3, h5]
  have hs : ∀ a b : ℚ, specIntent a b =
      (if |a| > 30 then (if a > 0 then Intent.next else Intent.previous)
       else if |a| < 10 ∧ |b| < 10 then Intent.flip else Intent.noIntent) := fun _ _ => rfl
  refine ⟨hmain _ _ _ _ _, hclass, rfl, rfl, rfl, rfl, rfl, rfl, ?_, ?_, ?_, ?_, ?_, ?_, ?_, ?_,
    ?_, ?_, ?_, ?_, ?_, ?_, ?_, ?_, ?_⟩
  all_goals first
    | (rw [hs]; norm_num [abs_lt, lt_abs])
    | (rw [hmain, hs]; norm_num [abs_lt, lt_abs, applyIntent])

/-! ## Favourites -/

theorem favBtnClick_eq (s : AppState) (item : CardRecord) (h : currentCard s = some item) :
    favBtnClick s =
      if s.storageOk then
        { s with favoriteImages := toggled s.favoriteImages item.image,
                 stored := some (jsonStringify (toggled s.favoriteImages item.image)),
                 favActive := (toggled s.favoriteImages item.image).contains item.image }
      else
        { s with favoriteImages := toggled s.favoriteImages item.image,
                 uncaught := s.uncaught + 1 } := by
  unfold favBtnClick toggled
  rw [h]
  by_cases hc : item.image ∈ s.favoriteImages <;>
    by_cases hs : s.storageOk = true <;>
    simp [hc, hs, updateFavButtonState]

theorem toggled_mem_self (favs : List String) (x : String) :
    x ∈ toggled favs x ↔ x ∉ favs := by
  unfold toggled
  by_cases hc : x ∈ favs <;> simp [hc]

theorem toggled_mem_other (favs : List String) (x y : String) (hy : y ≠ x) :
    y ∈ toggled favs x ↔ y ∈ favs := by
  unfold toggled
  by_cases hc : x ∈ favs <;> simp [hc, hy]

/-- One click, whatever the store does: the list becomes `toggled`, the position, the
stack and the store's availability stay; with a working store the stored text is the
serialization of the new list. -/
theorem favBtnClick_once (s : AppState) (item : CardRecord) (h : currentCard s = some item) :
    (favBtnClick s).favoriteImages = toggled s.favoriteImages item.image ∧
    (favBtnClick s).currentIndex = s.currentIndex ∧
    (favBtnClick s).currentStack = s.currentStack ∧
    (favBtnClick s).storageOk = s.storageOk ∧
    currentCard (favBtnClick s) = some item ∧
    (s.storageOk = true →
      (favBtnClick s).stored = some (jsonStringify (favBtnClick s).favoriteImages)) := by
  rw [favBtnClick_eq s item h]
  by_cases hs : s.storageOk = true
  · rw [if_pos hs]
    exact ⟨rfl, rfl, rfl, rfl, h, fun _ => rfl⟩
  · rw [if_neg hs]
    exact ⟨rfl, rfl, rfl, rfl, h, fun hh => absurd hh hs⟩

/-- C10, refuted as stated: in the two-card Gothic session with a browser that refuses
`localStorage.setItem`, one click makes `b.jpg` a favourite in memory but writes nothing:
the store is still empty, not the serialization of the updated list; the handler ends on
the uncaught exception and the button keeps its old state. -/
theorem favBtnClick_store_refused :
    inBounds gothicSessionNoStore ∧
    currentCard gothicSessionNoStore = some ⟨"Duomo", "Gothic", "b.jpg"⟩ ∧
    gothicSessionNoStore.favoriteImages = [] ∧
    (favBtnClick gothicSessionNoStore).favoriteImages = ["b.jpg"] ∧
    (favBtnClick gothicSessionNoStore).stored = none ∧
    (favBtnClick gothicSessionNoStore).stored ≠
      some (jsonStringify (favBtnClick gothicSessionNoStore).favoriteImages) ∧
    (favBtnClick gothicSessionNoStore).favActive = false ∧
    (favBtnClick gothicSessionNoStore).uncaught = 1 := by
  decide

/-- C10, amended: in an active session with current image `x`, one click on the favourite
button flips the membership of `x` in `favoriteImages` and of no other image; a second
click restores the membership of every image; neither click changes `currentIndex` or
`currentStack`; and when the browser accepts the `localStorage` write, after each click
the store holds the serialization of the updated list and of no other list. -/
theorem favBtnClick_spec (s : AppState) (hb : inBounds s) :
    ∃ item, currentCard s = some item ∧
      (item.image ∈ (favBtnClick s).favoriteImages ↔ item.image ∉ s.favoriteImages) ∧
      (∀ y, y ≠ item.image →
        (y ∈ (favBtnClick s).favoriteImages ↔ y ∈ s.favoriteImages)) ∧
      (favBtnClick s).currentIndex = s.currentIndex ∧
      (favBtnClick s).currentStack = s.currentStack ∧
      (∀ y, y ∈ (favBtnClick (favBtnClick s)).favoriteImages ↔ y ∈ s.favoriteImages) ∧
      (favBtnClick (favBtnClick s)).currentIndex = s.currentIndex ∧
      (favBtnClick (favBtnClick s)).currentStack = s.currentStack ∧
      (s.storageOk = true →
        (favBtnClick s).stored = some (jsonStringify (favBtnClick s).favoriteImages) ∧
        (∀ ys, (favBtnClick s).stored = some (jsonStringify ys) →
          ys = (favBtnClick s).favoriteImages) ∧
        (favBtnClick (favBtnClick s)).stored =
          some (jsonStringify (favBtnClick (favBtnClick s)).favoriteImages) ∧
        (∀ ys, (favBtnClick (favBtnClick s)).stored = some (jsonStringify ys) →
          ys = (favBtnClick (favBtnClick s)).favoriteImages)) := by
  obtain ⟨item, hcard, _⟩ := currentCard_of_inBounds s hb
  obtain ⟨a1, a2, a3, a4, a5, a6⟩ := favBtnClick_once s item hcard
  obtain ⟨b1, b2, b3, b4, _, b6⟩ := favBtnClick_once (favBtnClick s) item a5
  have m1 : item.image ∈ (favBtnClick s).favoriteImages ↔ item.image ∉ s.favoriteImages := by
    rw [a1]; exact toggled_mem_self _ _
  have m2 : ∀ y, y ≠ item.image →
      (y ∈ (favBtnClick s).favoriteImages ↔ y ∈ s.favoriteImages) := by
    intro y hy; rw [a1]; exact toggled_mem_other _ _ _ hy
  refine ⟨item, hcard, m1, m2, a2, a3, ?_, b2.trans a2, b3.trans a3, ?_⟩
  · intro y
    rw [b1]
    by_cases hy : y = item.image
    · subst hy
      rw [toggled_mem_self, m1, not_not]
    · rw [toggled_mem_other _ _ _ hy, m2 y hy]
  · intro hs
    have hs2 : (favBtnClick s).storageOk = true := a4.trans hs
    refine ⟨a6 hs, ?_, b6 hs2, ?_⟩
    · intro ys hys
      rw [a6 hs] at hys
      exact (jsonStringify_injective _ _ (Option.some.inj hys)).symm
    · intro ys hys
      rw [b6 hs2] at hys
      exact (jsonStringify_injective _ _ (Option.some.inj hys)).symm

/-- Witness for `favBtnClick_spec`: the two-card Gothic session with a working store,
whose current card at position 0 is b.jpg; one click stores the one-element list, a
second click empties it. -/
theorem favBtnClick_spec_witness :
    inBounds gothicSession ∧ gothicSession.storageOk = true ∧
    (favBtnClick gothicSession).favoriteImages = ["b.jpg"] ∧
    (favBtnClick gothicSession).stored = some "[\"b.jpg\"]" ∧
    (favBtnClick (favBtnClick gothicSession)).favoriteImages = [] ∧
    (favBtnClick (favBtnClick gothicSession)).stored = some "[]" ∧
    (∃ item, currentCard gothicSession = some item ∧
      (item.image ∈ (favBtnClick gothicSession).favoriteImages ↔
        item.image ∉ gothicSession.favoriteImages) ∧
      (gothicSession.storageOk = true →
        (favBtnClick gothicSession).stored =
          some (jsonStringify (favBtnClick gothicSession).favoriteImages))) :=
  ⟨by decide, by decide, by decide, by decide, by decide, by decide,
    (favBtnClick_spec gothicSession (by decide)).imp
      (fun _ h => ⟨h.1, h.2.1, fun hs => (h.2.2.2.2.2.2.2.2 hs).1⟩)⟩

end ArchFlash
